import Mathlib

/-!
# Verification of the family-helper platform wrappers

Shallow embedding of the TypeScript platform wrapper stubs
(`src/platform/README.md`: `StubDatabase`, `StubPubSub`, `StubCache`)
and of `EnvironmentConfig` (`src/unnamed/part_007`), together with
theorems settling the specification claims about them.

Conventions:
- JavaScript `Map` objects become association lists `List (String × β)`
  with first-occurrence lookup, in-place replacement and deletion,
  mirroring `Map.get` / `Map.set` / `Map.delete`.
- The mutable instance state of each class becomes an explicit state
  value threaded through the operations.
- Thrown JS exceptions become `Except` errors.
- Host-runtime primitives that are not part of the repository
  (`Number(...)`, `JSON.parse`, `Math.random`, `Date.now`) are passed in
  as explicit parameters, so every theorem quantifies over them.
-/

set_option autoImplicit false

namespace FamilyHelper

/-! ## StubDatabase (src/platform/README.md)

`StubDatabase` keeps a private numeric field `transactionDepth`,
initially `0`.  `query` logs the current depth in its metadata;
`withTx(fn)` increments the depth, runs `fn`, and in a `finally` block
decrements the depth again, rethrowing any error the body raised.

Client code running against one `StubDatabase` instance is embedded as a
small program syntax `DbProg`: it can run queries, throw, sequence two
programs, and wrap a program in `withTx`.  Errors are coded as `Nat`
(the JS thrown value, treated as an uninterpreted token).  The depth
field is an `Int`, as JS numbers may in principle go negative. -/

inductive DbProg : Type where
  | pure : DbProg
  | query : DbProg
  | throwErr : Nat → DbProg
  | seq : DbProg → DbProg → DbProg
  | withTx : DbProg → DbProg
deriving DecidableEq, Repr

/-- Outcome of running a `DbProg` against a `StubDatabase`:
the result (normal return or thrown error), the final value of the
`transactionDepth` field, and the list of `transactionDepth` values that
the `query` calls logged, in execution order. -/
structure DbRun where
  res : Except Nat Unit
  depth : Int
  obs : List Int
deriving Repr

/-- Execution of a `DbProg` from a given `transactionDepth`.

Mirrors the source: `query` logs `transactionDepth` and returns;
`withTx` does `transactionDepth++`, runs the body, and in `finally`
does `transactionDepth--`, so the decrement happens on the throwing
path as well, and the thrown value is rethrown unchanged.
A `seq` stops at the first thrown error, as JS control flow does. -/
def runDb : DbProg → Int → DbRun
  | .pure, d => ⟨.ok (), d, []⟩
  | .query, d => ⟨.ok (), d, [d]⟩
  | .throwErr e, d => ⟨.error e, d, []⟩
  | .seq p q, d =>
    let r := runDb p d
    match r.res with
    | .ok _ =>
      let r2 := runDb q r.depth
      ⟨r2.res, r2.depth, r.obs ++ r2.obs⟩
    | .error e => ⟨.error e, r.depth, r.obs⟩
  | .withTx p, d =>
    let r := runDb p (d + 1)
    ⟨r.res, r.depth - 1, r.obs⟩

/-- `N`-fold nesting `withTx (withTx (... (withTx p)))`. -/
def nestTx : Nat → DbProg → DbProg
  | 0, p => p
  | n + 1, p => .withTx (nestTx n p)

/-- Every program leaves `transactionDepth` exactly where it found it:
each increment in `withTx` is paired with the decrement in `finally`,
on the success path and on the throwing path alike. -/
theorem runDb_depth (p : DbProg) (d : Int) : (runDb p d).depth = d := by
  induction p generalizing d with
  | pure => rfl
  | query => rfl
  | throwErr e => rfl
  | seq p q ihp ihq =>
    simp only [runDb]
    cases h : (runDb p d).res with
    | ok _ => simp [h, ihp, ihq]
    | error e => simp [h, ihp]
  | withTx p ih =>
    simp only [runDb, ih]
    omega

/-- Every depth a `query` observes is at least the starting depth:
depths only grow while descending into `withTx` bodies. -/
theorem runDb_obs_ge (p : DbProg) (d : Int) :
    ∀ x ∈ (runDb p d).obs, d ≤ x := by
  induction p generalizing d with
  | pure => simp [runDb]
  | query => simp [runDb]
  | throwErr e => simp [runDb]
  | seq p q ihp ihq =>
    intro x hx
    simp only [runDb] at hx
    cases h : (runDb p d).res with
    | ok _ =>
      simp only [h, List.mem_append] at hx
      rcases hx with hx | hx
      · exact ihp d x hx
      · have := ihq (runDb p d).depth x hx
        rw [runDb_depth] at this
        exact this
    | error e =>
      simp only [h] at hx
      exact ihp d x hx
  | withTx p ih =>
    intro x hx
    simp only [runDb] at hx
    have := ih (d + 1) x hx
    omega

/-- The single query at the bottom of `N` nested `withTx` wrappers
observes depth `d + N` when started at depth `d`. -/
theorem runDb_nestTx_query (N : Nat) (d : Int) :
    runDb (nestTx N .query) d = ⟨.ok (), d, [d + N]⟩ := by
  induction N generalizing d with
  | zero => simp [nestTx, runDb]
  | succ n ih =>
    simp only [nestTx, runDb, ih (d + 1), DbRun.mk.injEq]
    refine ⟨trivial, by omega, ?_⟩
    congr 1
    push_cast
    ring

/-- C1: transaction depth invariant of `StubDatabase`.
The depth starts at 0; a `query` inside the body of an `N`-level nested
`withTx` observes `transactionDepth = N`; after any program returns
(normally or with a thrown error) the depth is back at its pre-call
value, so from the initial depth 0 it is 0 again and no observed depth
is ever negative. -/
theorem stubDatabase_transactionDepth_invariant
    (p : DbProg) (d : Int) (N : Nat) (hN : 1 ≤ N) (hd : 0 ≤ d) :
    (runDb p d).depth = d ∧
    (runDb (nestTx N .query) 0).obs = [(N : Int)] ∧
    ∀ x ∈ (runDb p d).obs, 0 ≤ x := by
  refine ⟨runDb_depth p d, ?_, ?_⟩
  · rw [runDb_nestTx_query N 0]
    simp
  · intro x hx
    have := runDb_obs_ge p d x hx
    omega

/-- Witness for C1 at a concrete program: a transaction that queries,
then throws from a nested transaction, started at depth 0 with N = 2. -/
theorem stubDatabase_transactionDepth_invariant_witness :
    (runDb (.withTx (.seq .query (.withTx (.throwErr 5)))) 0).depth = 0 ∧
    (runDb (nestTx 2 .query) 0).obs = [(2 : Int)] ∧
    ∀ x ∈ (runDb (.withTx (.seq .query (.withTx (.throwErr 5)))) 0).obs, 0 ≤ x :=
  stubDatabase_transactionDepth_invariant
    (.withTx (.seq .query (.withTx (.throwErr 5)))) 0 2 (by decide) (by decide)

/-- C2: rollback propagation.  When the body of `withTx` throws `e`,
the `withTx` call itself throws exactly the same `e` to its caller
(never swallowed or replaced), and the depth has still been decremented
back to the pre-call value before the error reaches the caller. -/
theorem stubDatabase_withTx_rethrows (p : DbProg) (d : Int) (e : Nat)
    (h : (runDb p (d + 1)).res = .error e) :
    (runDb (.withTx p) d).res = .error e ∧ (runDb (.withTx p) d).depth = d := by
  constructor
  · simp [runDb, h]
  · exact runDb_depth (.withTx p) d

/-- Witness for C2: a body that throws the value 7 at depth 0. -/
theorem stubDatabase_withTx_rethrows_witness :
    (runDb (.withTx (.throwErr 7)) 0).res = .error 7 ∧
    (runDb (.withTx (.throwErr 7)) 0).depth = 0 :=
  stubDatabase_withTx_rethrows (.throwErr 7) 0 7 rfl

/-! ## Association lists modelling JS `Map` and the config cache

`Map.get` finds the unique entry for a key, `Map.set` replaces it in
place (or appends a fresh entry), `Map.delete` removes it.  On an
association list the entry is the first occurrence of the key; the
operations below preserve key uniqueness, so they coincide with `Map`
semantics on every reachable state. -/

/-- `Map.get`: value of the first entry with the given key. -/
def getAssoc {β : Type} : List (String × β) → String → Option β
  | [], _ => none
  | e :: l, k => if e.1 = k then some e.2 else getAssoc l k

/-- `Map.set`: replace the first entry with the given key in place, or
append a fresh entry when the key is absent. -/
def setAssoc {β : Type} : List (String × β) → String → β → List (String × β)
  | [], k, v => [(k, v)]
  | e :: l, k, v => if e.1 = k then (k, v) :: l else e :: setAssoc l k v

/-- `Map.delete` (without its Boolean result): remove the first entry
with the given key. -/
def delAssoc {β : Type} : List (String × β) → String → List (String × β)
  | [], _ => []
  | e :: l, k => if e.1 = k then l else e :: delAssoc l k

theorem getAssoc_setAssoc_self {β : Type} (l : List (String × β)) (k : String) (v : β) :
    getAssoc (setAssoc l k v) k = some v := by
  induction l with
  | nil => simp [setAssoc, getAssoc]
  | cons e l ih =>
    by_cases h : e.1 = k
    · simp [setAssoc, getAssoc, h]
    · simp [setAssoc, getAssoc, h, ih]

theorem getAssoc_setAssoc_ne {β : Type} (l : List (String × β)) (k k2 : String) (v : β)
    (h : k2 ≠ k) : getAssoc (setAssoc l k v) k2 = getAssoc l k2 := by
  have hne : ¬(k = k2) := fun h2 => h h2.symm
  induction l with
  | nil => simp [setAssoc, getAssoc, hne]
  | cons e l ih =>
    by_cases he : e.1 = k
    · subst he
      simp [setAssoc, getAssoc, hne]
    · simp [setAssoc, getAssoc, he, ih]

/-- If the first entry for `k` already holds `v`, `Map.set k v` leaves
the map unchanged. -/
theorem setAssoc_of_getAssoc {β : Type} (l : List (String × β)) (k : String) (v : β)
    (h : getAssoc l k = some v) : setAssoc l k v = l := by
  induction l with
  | nil => simp [getAssoc] at h
  | cons e l ih =>
    by_cases he : e.1 = k
    · simp only [getAssoc, if_pos he] at h
      simp only [setAssoc, if_pos he]
      have hev : e = (k, v) := by
        obtain ⟨e1, e2⟩ := e
        simp_all
      rw [hev]
    · simp only [getAssoc, if_neg he] at h
      simp [setAssoc, he, ih h]

/-- The keys of the map, in insertion order. -/
def assocKeys {β : Type} (l : List (String × β)) : List String := l.map Prod.fst

theorem getAssoc_eq_none_of_not_mem {β : Type} (l : List (String × β)) (k : String)
    (h : k ∉ assocKeys l) : getAssoc l k = none := by
  induction l with
  | nil => rfl
  | cons e l ih =>
    simp only [assocKeys, List.map_cons, List.mem_cons, not_or] at h
    simp only [getAssoc]
    rw [if_neg (fun h2 => h.1 h2.symm)]
    exact ih h.2

/-- `Map.set` either rewrites an existing entry in place (same keys) or
appends a brand-new key at the end. -/
theorem assocKeys_setAssoc_cases {β : Type} (l : List (String × β)) (k : String) (v : β) :
    assocKeys (setAssoc l k v) = assocKeys l ∨
    (k ∉ assocKeys l ∧ assocKeys (setAssoc l k v) = assocKeys l ++ [k]) := by
  induction l with
  | nil => right; simp [setAssoc, assocKeys]
  | cons e l ih =>
    by_cases he : e.1 = k
    · left
      simp [setAssoc, assocKeys, he]
    · rcases ih with h1 | ⟨h2, h3⟩
      · left
        simp only [setAssoc, if_neg he, assocKeys, List.map_cons]
        simp only [assocKeys] at h1
        rw [h1]
      · right
        refine ⟨?_, ?_⟩
        · simp only [assocKeys, List.map_cons, List.mem_cons, not_or]
          exact ⟨fun h4 => he h4.symm, h2⟩
        · simp only [setAssoc, if_neg he, assocKeys, List.map_cons]
          simp only [assocKeys] at h3
          rw [h3, List.cons_append]

/-- `Map.set` keeps the keys unique. -/
theorem assocKeys_setAssoc_nodup {β : Type} (l : List (String × β)) (k : String) (v : β)
    (h : (assocKeys l).Nodup) : (assocKeys (setAssoc l k v)).Nodup := by
  rcases assocKeys_setAssoc_cases l k v with h1 | ⟨h2, h3⟩
  · rw [h1]; exact h
  · rw [h3]
    refine List.Nodup.append h (List.nodup_singleton k) ?_
    intro a ha hb
    simp only [List.mem_singleton] at hb
    subst hb
    exact h2 ha

/-- With unique keys, deleting a key removes every trace of it. -/
theorem getAssoc_delAssoc_self {β : Type} (l : List (String × β)) (k : String)
    (h : (assocKeys l).Nodup) : getAssoc (delAssoc l k) k = none := by
  induction l with
  | nil => simp [delAssoc, getAssoc]
  | cons e l ih =>
    simp only [assocKeys, List.map_cons, List.nodup_cons] at h
    by_cases he : e.1 = k
    · simp only [delAssoc, if_pos he]
      apply getAssoc_eq_none_of_not_mem
      rw [← he]
      exact h.1
    · simp only [delAssoc, if_neg he, getAssoc, if_neg he]
      exact ih h.2

/-! ## EnvironmentConfig (src/unnamed/part_007)

`EnvironmentConfig` resolves configuration keys from `process.env` with
a per-instance memoization cache (`private cache = new Map()`),
type-hinted coercion driven by `typeof opts.default`, and auto-detected
coercion otherwise.  The process environment is a parameter
`env : String → Option String` (`none` = variable unset), and the two
host-runtime primitives the class calls are passed in as `JsPrims`.
JS numbers are embedded as exact rationals `Rat`. -/

/-- A JavaScript value as produced by the config coercions. -/
inductive JValue : Type where
  | jnull : JValue
  | jbool : Bool → JValue
  | jnum : Rat → JValue
  | jstr : String → JValue
  | jarr : List JValue → JValue
  | jobj : List (String × JValue) → JValue
deriving Repr

/-- JS `typeof` on a `JValue` (`typeof null` is famously `"object"`). -/
def jsTypeof : JValue → String
  | .jnull => "object"
  | .jbool _ => "boolean"
  | .jnum _ => "number"
  | .jstr _ => "string"
  | .jarr _ => "object"
  | .jobj _ => "object"

/-- The host-runtime primitives `EnvironmentConfig` calls but does not
define: `Number(s)` (`none` when the result is `NaN`) and
`JSON.parse(s)` (`none` when it throws). -/
structure JsPrims where
  number : String → Option Rat
  jsonParse : String → Option JValue

/-- ASCII lower-casing of one character, as `toLowerCase` acts on the
token alphabet the config code compares against. -/
def lcChar (c : Char) : Char :=
  if 65 ≤ c.toNat ∧ c.toNat ≤ 90 then Char.ofNat (c.toNat + 32) else c

/-- `rawValue.toLowerCase()` (ASCII range). -/
def toLowerStr (s : String) : String := ⟨s.data.map lcChar⟩

/-- Numeric value of a decimal digit character. -/
def digitVal (c : Char) : Nat := c.toNat - 48

/-- `parseInt(s, 10)` on an all-digit string, exactly. -/
def digitsToNat (l : List Char) : Nat := l.foldl (fun a c => a * 10 + digitVal c) 0

/-- The regex `/^\d+$/` of `convertValue`. -/
def isIntString (s : String) : Bool := !s.data.isEmpty && s.data.all Char.isDigit

/-- Split a character list at its first dot, if any. -/
def splitDot : List Char → Option (List Char × List Char)
  | [] => none
  | c :: l =>
    if c = Char.ofNat 46 then some ([], l)
    else
      match splitDot l with
      | some (a, b) => some (c :: a, b)
      | none => none

/-- The regex `/^\d+\.\d+$/` of `convertValue`: digits, one dot,
digits.  (Splitting at the first dot and requiring digits on both
sides rules out a second dot.) -/
def isFloatString (s : String) : Bool :=
  match splitDot s.data with
  | some (a, b) => !a.isEmpty && a.all Char.isDigit && (!b.isEmpty && b.all Char.isDigit)
  | none => false

/-- `parseFloat` on a string matching `/^\d+\.\d+$/`, as an exact
rational. -/
def parseDecimalRat (s : String) : Rat :=
  match splitDot s.data with
  | some (a, b) => (digitsToNat a : Rat) + (digitsToNat b : Rat) / ((10 : Rat) ^ b.length)
  | none => 0

/-- The opening brace character. -/
def braceL : Char := Char.ofNat 123

/-- The closing brace character. -/
def braceR : Char := Char.ofNat 125

/-- `s.startsWith(c)` for a one-character prefix. -/
def headIs (s : String) (c : Char) : Bool :=
  match s.data with
  | [] => false
  | c2 :: _ => c2 = c

/-- `s.endsWith(c)` for a one-character suffix. -/
def lastIs (s : String) (c : Char) : Bool :=
  match s.data.getLast? with
  | some c2 => c2 = c
  | none => false

/-- The error type thrown by `EnvironmentConfig` (`ConfigError` in the
source; the messages here drop the quote characters around the
interpolated fragment). -/
structure ConfigError where
  message : String
deriving DecidableEq, Repr

/-- The options record of `get`: `{ required?: boolean; default?: T }`.
An absent `default` is `none`. -/
structure GetOpts where
  required : Bool := false
  default : Option JValue := none

/-- The boolean token list of `convertValue`. -/
def boolTokens : List String := ["true", "false", "1", "0", "yes", "no"]

/-- The auto-detect tail of `convertValue`: integer pattern, then float
pattern, then boolean tokens, then a `JSON.parse` attempt for strings
bracketed by matching braces or square brackets (silently falling back
to the raw string when the parse throws), then the raw string. -/
def autoDetect (prims : JsPrims) (raw : String) : JValue :=
  if isIntString raw then .jnum (digitsToNat raw.data : Rat)
  else if isFloatString raw then .jnum (parseDecimalRat raw)
  else if toLowerStr raw ∈ boolTokens then
    .jbool (toLowerStr raw = "true" ∨ toLowerStr raw = "1" ∨ toLowerStr raw = "yes")
  else if (headIs raw braceL && lastIs raw braceR)
       || (headIs raw '[' && lastIs raw ']') then
    match prims.jsonParse raw with
    | some v => v
    | none => .jstr raw
  else .jstr raw

/-- `convertValue(rawValue, defaultValue)`: when a default is present
its `typeof` drives the coercion (`number` / `boolean` / `object`
hints can throw `ConfigError`; any other `typeof`, e.g. a string
default, falls through the `switch`); otherwise auto-detection. -/
def convertValue (prims : JsPrims) (raw : String) (dflt : Option JValue) :
    Except ConfigError JValue :=
  match dflt with
  | some d =>
    if jsTypeof d = "number" then
      match prims.number raw with
      | some n => .ok (.jnum n)
      | none => .error ⟨"Configuration value " ++ raw ++ " cannot be converted to number"⟩
    else if jsTypeof d = "boolean" then
      if toLowerStr raw = "true" ∨ toLowerStr raw = "1" ∨ toLowerStr raw = "yes" then
        .ok (.jbool true)
      else if toLowerStr raw = "false" ∨ toLowerStr raw = "0" ∨ toLowerStr raw = "no" then
        .ok (.jbool false)
      else .error ⟨"Configuration value " ++ raw ++ " cannot be converted to boolean"⟩
    else if jsTypeof d = "object" then
      match prims.jsonParse raw with
      | some v => .ok v
      | none => .error ⟨"Configuration value " ++ raw ++ " is not valid JSON"⟩
    else .ok (autoDetect prims raw)
  | none => .ok (autoDetect prims raw)

/-- The state of an `EnvironmentConfig` instance: its memoization
cache. -/
structure EnvironmentConfig where
  cache : List (String × JValue) := []
deriving Repr

/-- `clearCache()`: empty the memoization cache. -/
def EnvironmentConfig.clearCache (_cfg : EnvironmentConfig) : EnvironmentConfig := ⟨[]⟩

/-- The missing-value branch of `get` (raw value `undefined` or `''`):
throw when `opts.required === true`, else memoize and return the
default when present, else memoize and return the empty string. -/
def EnvironmentConfig.handleMissing (cfg : EnvironmentConfig) (key : String)
    (opts : GetOpts) : Except ConfigError (JValue × EnvironmentConfig) :=
  if opts.required then
    .error ⟨"Required configuration key " ++ key ++ " is missing or empty"⟩
  else
    match opts.default with
    | some d => .ok (d, ⟨setAssoc cfg.cache key d⟩)
    | none => .ok (.jstr "", ⟨setAssoc cfg.cache key (.jstr "")⟩)

/-- `get(key, opts)`: cache hit returns the memoized value untouched;
otherwise the raw environment value is resolved, coerced via
`convertValue`, memoized and returned.  Returns the value together with
the updated instance state. -/
def EnvironmentConfig.get (cfg : EnvironmentConfig) (env : String → Option String)
    (prims : JsPrims) (key : String) (opts : GetOpts) :
    Except ConfigError (JValue × EnvironmentConfig) :=
  match getAssoc cfg.cache key with
  | some v => .ok (v, cfg)
  | none =>
    match env key with
    | none => cfg.handleMissing key opts
    | some raw =>
      if raw = "" then cfg.handleMissing key opts
      else
        match convertValue prims raw opts.default with
        | .ok v => .ok (v, ⟨setAssoc cfg.cache key v⟩)
        | .error e => .error e

/-- A trivial instantiation of the host primitives, used to evaluate
concrete scenarios: `Number` always yields `NaN` and `JSON.parse`
always throws.  (The paths exercised below never reach them, except
where a hypothesis says otherwise.) -/
def stubPrims : JsPrims := ⟨fun _ => none, fun _ => none⟩

theorem EnvironmentConfig.handleMissing_ok_lookup
    {cfg cfg2 : EnvironmentConfig} {key : String} {opts : GetOpts} {v : JValue}
    (h : cfg.handleMissing key opts = .ok (v, cfg2)) :
    getAssoc cfg2.cache key = some v := by
  unfold EnvironmentConfig.handleMissing at h
  cases hr : opts.required with
  | true => rw [hr] at h; simp at h
  | false =>
    rw [hr] at h
    simp only [Bool.false_eq_true, if_false] at h
    cases hd : opts.default with
    | some d =>
      rw [hd] at h
      simp only [Except.ok.injEq, Prod.mk.injEq] at h
      rw [← h.2]
      exact h.1 ▸ getAssoc_setAssoc_self cfg.cache key d
    | none =>
      rw [hd] at h
      simp only [Except.ok.injEq, Prod.mk.injEq] at h
      rw [← h.2]
      exact h.1 ▸ getAssoc_setAssoc_self cfg.cache key (.jstr "")

/-- Every successful `get` leaves the returned value memoized under the
requested key in the returned instance state. -/
theorem EnvironmentConfig.get_ok_lookup
    {cfg cfg2 : EnvironmentConfig} {env : String → Option String} {prims : JsPrims}
    {key : String} {opts : GetOpts} {v : JValue}
    (h : cfg.get env prims key opts = .ok (v, cfg2)) :
    getAssoc cfg2.cache key = some v := by
  unfold EnvironmentConfig.get at h
  cases hC : getAssoc cfg.cache key with
  | some u =>
    simp only [hC, Except.ok.injEq, Prod.mk.injEq] at h
    rw [← h.2, hC, h.1]
  | none =>
    simp only [hC] at h
    cases hE : env key with
    | none =>
      simp only [hE] at h
      exact EnvironmentConfig.handleMissing_ok_lookup h
    | some raw =>
      simp only [hE] at h
      by_cases hr : raw = ""
      · rw [if_pos hr] at h
        exact EnvironmentConfig.handleMissing_ok_lookup h
      · rw [if_neg hr] at h
        cases hcv : convertValue prims raw opts.default with
        | ok w =>
          simp only [hcv, Except.ok.injEq, Prod.mk.injEq] at h
          rw [← h.2]
          exact h.1 ▸ getAssoc_setAssoc_self cfg.cache key w
        | error e =>
          simp only [hcv] at h
          simp at h

/-- C3: memoization.  Once a `get(key)` on an instance has resolved a
value, every later `get(key)` on the resulting instance returns that
same value with the state unchanged — whatever the environment, the
host primitives or the options of the later call are — until
`clearCache()` empties the cache, after which the next `get(key)`
re-reads the environment and re-coerces the raw value. -/
theorem environmentConfig_memoization
    (cfg cfg2 : EnvironmentConfig) (env env2 : String → Option String)
    (prims prims2 : JsPrims) (key : String) (opts opts2 : GetOpts) (v : JValue)
    (h : cfg.get env prims key opts = .ok (v, cfg2)) :
    cfg2.get env2 prims2 key opts2 = .ok (v, cfg2) ∧
    cfg2.clearCache.cache = [] ∧
    (∀ raw w, env2 key = some raw → raw ≠ "" →
      convertValue prims2 raw opts2.default = .ok w →
      cfg2.clearCache.get env2 prims2 key opts2 = .ok (w, ⟨[(key, w)]⟩)) := by
  have hl := EnvironmentConfig.get_ok_lookup h
  refine ⟨?_, rfl, ?_⟩
  · unfold EnvironmentConfig.get
    rw [hl]
  · intro raw w hraw hne hcv
    unfold EnvironmentConfig.get
    simp [EnvironmentConfig.clearCache, getAssoc, hraw, hne, hcv, setAssoc]

/-- Witness for C3 at key `K` resolved from environment value `hello`;
the second read uses a different environment and different options. -/
theorem environmentConfig_memoization_witness :
    EnvironmentConfig.get ⟨[("K", .jstr "hello")]⟩ (fun _ => some "changed") stubPrims
        "K" ⟨true, some (.jnum 3)⟩ = .ok (.jstr "hello", ⟨[("K", .jstr "hello")]⟩) ∧
    (EnvironmentConfig.clearCache ⟨[("K", .jstr "hello")]⟩).cache = [] ∧
    (∀ raw w, (fun _ => some "changed") "K" = some raw → raw ≠ "" →
      convertValue stubPrims raw (GetOpts.mk true (some (.jnum 3))).default = .ok w →
      (EnvironmentConfig.clearCache ⟨[("K", .jstr "hello")]⟩).get (fun _ => some "changed")
        stubPrims "K" ⟨true, some (.jnum 3)⟩ = .ok (w, ⟨[("K", w)]⟩)) :=
  environmentConfig_memoization ⟨[]⟩ ⟨[("K", .jstr "hello")]⟩
    (fun _ => some "hello") (fun _ => some "changed") stubPrims stubPrims
    "K" ⟨false, none⟩ ⟨true, some (.jnum 3)⟩ (.jstr "hello") rfl

/-- C10: a cache hit ignores the options entirely.  Whenever the key is
already memoized — including the empty-string fallback memoized for an
absent key and a previously memoized default — `get` returns the cached
value with the state unchanged, never raising for `required: true` and
never consulting a supplied default. -/
theorem environmentConfig_cacheHit_ignores_opts
    (cfg : EnvironmentConfig) (env : String → Option String) (prims : JsPrims)
    (key : String) (opts : GetOpts) (v : JValue)
    (hc : getAssoc cfg.cache key = some v) :
    cfg.get env prims key opts = .ok (v, cfg) := by
  unfold EnvironmentConfig.get
  rw [hc]

/-- Witness for C10: the empty-string fallback is cached for `K`, the
variable is absent, and a later `required: true` call with a numeric
default still returns the cached empty string without raising. -/
theorem environmentConfig_cacheHit_ignores_opts_witness :
    EnvironmentConfig.get ⟨[("K", .jstr "")]⟩ (fun _ => none) stubPrims "K"
      ⟨true, some (.jnum 3)⟩ = .ok (.jstr "", ⟨[("K", .jstr "")]⟩) :=
  environmentConfig_cacheHit_ignores_opts ⟨[("K", .jstr "")]⟩ (fun _ => none) stubPrims
    "K" ⟨true, some (.jnum 3)⟩ (.jstr "") rfl

/-- A fresh key with a nonempty raw environment value resolves through
`convertValue` and is memoized. -/
theorem EnvironmentConfig.get_fresh
    (cfg : EnvironmentConfig) (env : String → Option String) (prims : JsPrims)
    (key raw : String) (opts : GetOpts) (v : JValue)
    (hc : getAssoc cfg.cache key = none) (he : env key = some raw) (hr : raw ≠ "")
    (hcv : convertValue prims raw opts.default = .ok v) :
    cfg.get env prims key opts = .ok (v, ⟨setAssoc cfg.cache key v⟩) := by
  unfold EnvironmentConfig.get
  simp only [hc, he, if_neg hr, hcv]

/-- `convertValue` throws exactly when a default is supplied whose
`typeof` is `number`, `boolean` or `object` and the corresponding
coercion fails (`Number` gives `NaN`; the lower-cased raw value is none
of the six boolean tokens; `JSON.parse` throws).  The auto-detect path
never throws. -/
theorem convertValue_error_iff (prims : JsPrims) (raw : String) (dflt : Option JValue) :
    (∃ e, convertValue prims raw dflt = .error e) ↔
      ∃ d, dflt = some d ∧
        ((jsTypeof d = "number" ∧ prims.number raw = none) ∨
         (jsTypeof d = "boolean" ∧
           ¬(toLowerStr raw = "true" ∨ toLowerStr raw = "1" ∨ toLowerStr raw = "yes") ∧
           ¬(toLowerStr raw = "false" ∨ toLowerStr raw = "0" ∨ toLowerStr raw = "no")) ∨
         (jsTypeof d = "object" ∧ prims.jsonParse raw = none)) := by
  cases dflt with
  | none => simp [convertValue]
  | some d =>
    simp only [convertValue, Option.some.injEq]
    by_cases h1 : jsTypeof d = "number"
    · rw [if_pos h1]
      cases hn : prims.number raw with
      | some n => simp [h1, hn]
      | none => simp [h1, hn]
    · rw [if_neg h1]
      by_cases h2 : jsTypeof d = "boolean"
      · rw [if_pos h2]
        by_cases hb1 : toLowerStr raw = "true" ∨ toLowerStr raw = "1" ∨ toLowerStr raw = "yes"
        · rw [if_pos hb1]
          simp [h1, h2, hb1]
        · rw [if_neg hb1]
          by_cases hb2 : toLowerStr raw = "false" ∨ toLowerStr raw = "0" ∨ toLowerStr raw = "no"
          · rw [if_pos hb2]
            simp [h1, h2, hb1, hb2]
          · rw [if_neg hb2]
            simp [h1, h2, hb1, hb2]
      · rw [if_neg h2]
        by_cases h3 : jsTypeof d = "object"
        · rw [if_pos h3]
          cases hj : prims.jsonParse raw with
          | some v => simp [h1, h2, h3, hj]
          | none => simp [h1, h2, h3, hj]
        · rw [if_neg h3]
          simp [h1, h2, h3]

/-- `handleMissing` throws exactly when `opts.required === true`. -/
theorem EnvironmentConfig.handleMissing_error_iff
    (cfg : EnvironmentConfig) (key : String) (opts : GetOpts) :
    (∃ e, cfg.handleMissing key opts = .error e) ↔ opts.required = true := by
  unfold EnvironmentConfig.handleMissing
  cases hr : opts.required with
  | true => simp
  | false =>
    cases hd : opts.default with
    | some d => simp [hd]
    | none => simp [hd]

/-- On the required-and-missing path the error message names the key. -/
theorem EnvironmentConfig.handleMissing_required
    (cfg : EnvironmentConfig) (key : String) (opts : GetOpts)
    (hr : opts.required = true) :
    cfg.handleMissing key opts =
      .error ⟨"Required configuration key " ++ key ++ " is missing or empty"⟩ := by
  unfold EnvironmentConfig.handleMissing
  rw [if_pos hr]

/-- C4: for an uncached key, `get` raises `ConfigError` exactly when
the key is absent or empty in the environment while `required` is set
(and then the message names the key), or the raw value cannot be
coerced to the type of the supplied default: `Number` yields `NaN` on a
numeric default, the value is none of the six boolean tokens on a
boolean default, or `JSON.parse` throws on an object-typed default.
In every other case `get` returns normally.  (The error is the
synchronous result the caller of `get` sees.) -/
theorem environmentConfig_get_error_characterization
    (cfg : EnvironmentConfig) (env : String → Option String) (prims : JsPrims)
    (key : String) (opts : GetOpts)
    (hc : getAssoc cfg.cache key = none) :
    ((∃ e, cfg.get env prims key opts = .error e) ↔
      (((env key = none ∨ env key = some "") ∧ opts.required = true) ∨
       (∃ raw, env key = some raw ∧ raw ≠ "" ∧
        ∃ d, opts.default = some d ∧
          ((jsTypeof d = "number" ∧ prims.number raw = none) ∨
           (jsTypeof d = "boolean" ∧
             ¬(toLowerStr raw = "true" ∨ toLowerStr raw = "1" ∨ toLowerStr raw = "yes") ∧
             ¬(toLowerStr raw = "false" ∨ toLowerStr raw = "0" ∨ toLowerStr raw = "no")) ∨
           (jsTypeof d = "object" ∧ prims.jsonParse raw = none))))) ∧
    ((env key = none ∨ env key = some "") → opts.required = true →
      cfg.get env prims key opts =
        .error ⟨"Required configuration key " ++ key ++ " is missing or empty"⟩) := by
  have get_missing : (env key = none ∨ env key = some "") →
      cfg.get env prims key opts = cfg.handleMissing key opts := by
    rintro (he | he) <;>
      · unfold EnvironmentConfig.get
        simp [hc, he]
  have get_raw : ∀ raw, env key = some raw → raw ≠ "" →
      cfg.get env prims key opts =
        match convertValue prims raw opts.default with
        | .ok v => .ok (v, ⟨setAssoc cfg.cache key v⟩)
        | .error e => .error e := by
    intro raw he hr
    unfold EnvironmentConfig.get
    simp [hc, he, hr]
  constructor
  · cases hE : env key with
    | none =>
      rw [get_missing (Or.inl hE), EnvironmentConfig.handleMissing_error_iff]
      simp [hE]
    | some raw =>
      by_cases hr0 : raw = ""
      · subst hr0
        rw [get_missing (Or.inr hE), EnvironmentConfig.handleMissing_error_iff]
        simp [hE]
      · rw [get_raw raw hE hr0]
        cases hcv : convertValue prims raw opts.default with
        | ok w =>
          simp only [hcv]
          have hno : ¬∃ e2, convertValue prims raw opts.default = .error e2 := by
            rw [hcv]
            rintro ⟨e2, he2⟩
            cases he2
          rw [convertValue_error_iff] at hno
          constructor
          · rintro ⟨e2, he2⟩
            cases he2
          · rintro (⟨hmiss, _⟩ | ⟨raw2, hraw2, _, hrest⟩)
            · rcases hmiss with h4 | h4
              · cases h4
              · injection h4 with h5
                exact absurd h5 hr0
            · injection hraw2 with h5
              subst h5
              exact absurd hrest hno
        | error e =>
          simp only [hcv]
          have hyes : ∃ e2, convertValue prims raw opts.default = .error e2 := ⟨e, hcv⟩
          rw [convertValue_error_iff] at hyes
          constructor
          · intro _
            right
            exact ⟨raw, rfl, hr0, hyes⟩
          · intro _
            exact ⟨e, rfl⟩
  · intro hmiss hreq
    rw [get_missing hmiss]
    exact EnvironmentConfig.handleMissing_required cfg key opts hreq

/-- Witness for C4: fresh instance, absent `DB_URL`, `required: true`. -/
theorem environmentConfig_get_error_characterization_witness :
    (((∃ e, EnvironmentConfig.get ⟨[]⟩ (fun _ => none) stubPrims "DB_URL" ⟨true, none⟩
        = .error e) ↔
      ((((fun (_ : String) => (none : Option String)) "DB_URL" = none ∨
         (fun (_ : String) => (none : Option String)) "DB_URL" = some "") ∧
        (GetOpts.mk true none).required = true) ∨
       (∃ raw, (fun (_ : String) => (none : Option String)) "DB_URL" = some raw ∧ raw ≠ "" ∧
        ∃ d, (GetOpts.mk true none).default = some d ∧
          ((jsTypeof d = "number" ∧ stubPrims.number raw = none) ∨
           (jsTypeof d = "boolean" ∧
             ¬(toLowerStr raw = "true" ∨ toLowerStr raw = "1" ∨ toLowerStr raw = "yes") ∧
             ¬(toLowerStr raw = "false" ∨ toLowerStr raw = "0" ∨ toLowerStr raw = "no")) ∨
           (jsTypeof d = "object" ∧ stubPrims.jsonParse raw = none))))) ∧
     (((fun (_ : String) => (none : Option String)) "DB_URL" = none ∨
       (fun (_ : String) => (none : Option String)) "DB_URL" = some "") →
      (GetOpts.mk true none).required = true →
      EnvironmentConfig.get ⟨[]⟩ (fun _ => none) stubPrims "DB_URL" ⟨true, none⟩ =
        .error ⟨"Required configuration key " ++ "DB_URL" ++ " is missing or empty"⟩)) :=
  environmentConfig_get_error_characterization ⟨[]⟩ (fun _ => none) stubPrims
    "DB_URL" ⟨true, none⟩ rfl

/-- C8: priority order of auto-detect coercion when no default is
supplied: an all-digit string parses as an integer; a
digits-dot-digits string parses as a float; otherwise one of the six
canonical boolean tokens (case-insensitive) yields a boolean; otherwise
a string bracketed by matching braces or square brackets is attempted
as JSON, silently falling back to the raw string when the parse throws;
anything else is the raw string.  Concretely, `get("PORT")` on raw
`8080` returns the number 8080 and `get("FLAGS")` on a small JSON
object returns the parsed structure. -/
theorem environmentConfig_autoDetect_priority (prims : JsPrims)
    (hj : prims.jsonParse "\x7b\"a\":1\x7d" = some (.jobj [("a", .jnum 1)])) :
    (∀ raw : String,
      (isIntString raw = true → autoDetect prims raw = .jnum (digitsToNat raw.data : Rat)) ∧
      (isIntString raw = false → isFloatString raw = true →
        autoDetect prims raw = .jnum (parseDecimalRat raw)) ∧
      (isIntString raw = false → isFloatString raw = false → toLowerStr raw ∈ boolTokens →
        autoDetect prims raw =
          .jbool (toLowerStr raw = "true" ∨ toLowerStr raw = "1" ∨ toLowerStr raw = "yes")) ∧
      (isIntString raw = false → isFloatString raw = false → toLowerStr raw ∉ boolTokens →
        ((headIs raw braceL && lastIs raw braceR) || (headIs raw '[' && lastIs raw ']')) = true →
        ∀ v, prims.jsonParse raw = some v → autoDetect prims raw = v) ∧
      (isIntString raw = false → isFloatString raw = false → toLowerStr raw ∉ boolTokens →
        ((headIs raw braceL && lastIs raw braceR) || (headIs raw '[' && lastIs raw ']')) = true →
        prims.jsonParse raw = none → autoDetect prims raw = .jstr raw) ∧
      (isIntString raw = false → isFloatString raw = false → toLowerStr raw ∉ boolTokens →
        ((headIs raw braceL && lastIs raw braceR) || (headIs raw '[' && lastIs raw ']')) = false →
        autoDetect prims raw = .jstr raw)) ∧
    EnvironmentConfig.get ⟨[]⟩ (fun _ => some "8080") prims "PORT" ⟨false, none⟩ =
      .ok (.jnum 8080, ⟨[("PORT", .jnum 8080)]⟩) ∧
    EnvironmentConfig.get ⟨[]⟩ (fun _ => some "\x7b\"a\":1\x7d") prims "FLAGS" ⟨false, none⟩ =
      .ok (.jobj [("a", .jnum 1)], ⟨[("FLAGS", .jobj [("a", .jnum 1)])]⟩) := by
  have hauto1 : autoDetect prims "8080" = .jnum 8080 := by
    unfold autoDetect
    rw [if_pos (show isIntString "8080" = true from by decide)]
    rw [show digitsToNat "8080".data = 8080 from by decide]
    norm_num
  have hauto2 : autoDetect prims "\x7b\"a\":1\x7d" = .jobj [("a", .jnum 1)] := by
    unfold autoDetect
    rw [if_neg (by decide), if_neg (by decide), if_neg (by decide), if_pos (by decide)]
    simp only [hj]
  refine ⟨fun raw => ⟨?_, ?_, ?_, ?_, ?_, ?_⟩, ?_, ?_⟩
  · intro h
    unfold autoDetect
    rw [if_pos h]
  · intro h hf
    unfold autoDetect
    rw [if_neg (by simp [h]), if_pos hf]
  · intro h hf hm
    unfold autoDetect
    rw [if_neg (by simp [h]), if_neg (by simp [hf]), if_pos hm]
  · intro h hf hm hb v hv
    unfold autoDetect
    rw [if_neg (by simp [h]), if_neg (by simp [hf]), if_neg hm, if_pos hb]
    simp only [hv]
  · intro h hf hm hb hv
    unfold autoDetect
    rw [if_neg (by simp [h]), if_neg (by simp [hf]), if_neg hm, if_pos hb]
    simp only [hv]
  · intro h hf hm hb
    unfold autoDetect
    rw [if_neg (by simp [h]), if_neg (by simp [hf]), if_neg hm, if_neg (by simp [hb])]
  · refine EnvironmentConfig.get_fresh ⟨[]⟩ _ prims "PORT" "8080" ⟨false, none⟩
      (.jnum 8080) rfl rfl (by decide) ?_
    show Except.ok (autoDetect prims "8080") = Except.ok ((JValue.jnum 8080 : JValue))
    rw [hauto1]
  · refine EnvironmentConfig.get_fresh ⟨[]⟩ _ prims "FLAGS" "\x7b\"a\":1\x7d" ⟨false, none⟩
      (.jobj [("a", .jnum 1)]) rfl rfl (by decide) ?_
    show Except.ok (autoDetect prims "\x7b\"a\":1\x7d") =
      Except.ok ((JValue.jobj [("a", .jnum 1)] : JValue))
    rw [hauto2]

/-- A host-primitive instantiation whose `JSON.parse` knows exactly the
object used in the C8 example scenario. -/
def flagPrims : JsPrims :=
  ⟨fun _ => none,
   fun s => if s = "\x7b\"a\":1\x7d" then some (.jobj [("a", .jnum 1)]) else none⟩

/-- Witness for C8 at the concrete primitives `flagPrims`. -/
theorem environmentConfig_autoDetect_priority_witness :
    (∀ raw : String,
      (isIntString raw = true → autoDetect flagPrims raw = .jnum (digitsToNat raw.data : Rat)) ∧
      (isIntString raw = false → isFloatString raw = true →
        autoDetect flagPrims raw = .jnum (parseDecimalRat raw)) ∧
      (isIntString raw = false → isFloatString raw = false → toLowerStr raw ∈ boolTokens →
        autoDetect flagPrims raw =
          .jbool (toLowerStr raw = "true" ∨ toLowerStr raw = "1" ∨ toLowerStr raw = "yes")) ∧
      (isIntString raw = false → isFloatString raw = false → toLowerStr raw ∉ boolTokens →
        ((headIs raw braceL && lastIs raw braceR) || (headIs raw '[' && lastIs raw ']')) = true →
        ∀ v, flagPrims.jsonParse raw = some v → autoDetect flagPrims raw = v) ∧
      (isIntString raw = false → isFloatString raw = false → toLowerStr raw ∉ boolTokens →
        ((headIs raw braceL && lastIs raw braceR) || (headIs raw '[' && lastIs raw ']')) = true →
        flagPrims.jsonParse raw = none → autoDetect flagPrims raw = .jstr raw) ∧
      (isIntString raw = false → isFloatString raw = false → toLowerStr raw ∉ boolTokens →
        ((headIs raw braceL && lastIs raw braceR) || (headIs raw '[' && lastIs raw ']')) = false →
        autoDetect flagPrims raw = .jstr raw)) ∧
    EnvironmentConfig.get ⟨[]⟩ (fun _ => some "8080") flagPrims "PORT" ⟨false, none⟩ =
      .ok (.jnum 8080, ⟨[("PORT", .jnum 8080)]⟩) ∧
    EnvironmentConfig.get ⟨[]⟩ (fun _ => some "\x7b\"a\":1\x7d") flagPrims "FLAGS" ⟨false, none⟩ =
      .ok (.jobj [("a", .jnum 1)], ⟨[("FLAGS", .jobj [("a", .jnum 1)])]⟩) :=
  environmentConfig_autoDetect_priority flagPrims rfl

/-! ## StubPubSub (src/platform/README.md)

`StubPubSub` keeps a `Map` from topic to an array of handlers and a
bounded `eventHistory` array.  Handlers are compared by JS reference
identity (`indexOf`), embedded here as handler identifiers `Nat`; two
subscriptions of the same function object are two list entries with the
same identifier.  `publish` builds an envelope, appends it to the
history (shifting the oldest entry past 100), and schedules one
delivery of the envelope to each currently subscribed handler of the
topic; the scheduled deliveries are returned alongside the new state.
The envelope fields drawn from the host runtime (`generateUUID`,
`new Date()`, the trace id) are passed in as `PublishMeta`. -/

/-- The `EventEnvelope` built by `publish`. -/
structure EventEnvelope (α : Type) where
  id : String
  type : String
  occurredAt : String
  payload : α
  idempotencyKey : String
  trace : Option String

/-- Host-runtime inputs of one `publish` call: the generated envelope
id, the timestamp, the UUID generated as fallback idempotency key, and
the ambient trace id. -/
structure PublishMeta where
  id : String
  occurredAt : String
  freshIdem : String
  trace : Option String

/-- State of a `StubPubSub` instance. -/
structure StubPubSub (α : Type) where
  subscribers : List (String × List Nat) := []
  eventHistory : List (EventEnvelope α) := []

/-- JS `a || b` on an optional string: an absent or empty value falls
back. -/
def jsOrElse (s : Option String) (fallback : String) : String :=
  match s with
  | some v => if v ≠ "" then v else fallback
  | none => fallback

/-- `publish(topic, event, opts)`: build the envelope, push it on the
history, shift the history when it exceeds 100 entries, and schedule
one delivery per subscribed handler of the topic (returned as the
second component, in subscription order). -/
def StubPubSub.publish {α : Type} (bus : StubPubSub α) (topic : String) (event : α)
    (idem : Option String) (meta : PublishMeta) :
    StubPubSub α × List (Nat × EventEnvelope α) :=
  let envelope : EventEnvelope α :=
    ⟨meta.id, topic, meta.occurredAt, event, jsOrElse idem meta.freshIdem, meta.trace⟩
  let hist := bus.eventHistory ++ [envelope]
  let hist2 := if hist.length > 100 then hist.tail else hist
  let handlers := (getAssoc bus.subscribers topic).getD []
  (⟨bus.subscribers, hist2⟩, handlers.map (fun h => (h, envelope)))

/-- `subscribe(topic, handler)`: append the handler to the topic's
array, creating it when absent.  The returned cancellation closure is
`StubPubSub.unsubscribe topic h` below. -/
def StubPubSub.subscribe {α : Type} (bus : StubPubSub α) (topic : String) (h : Nat) :
    StubPubSub α :=
  ⟨setAssoc bus.subscribers topic (((getAssoc bus.subscribers topic).getD []) ++ [h]),
   bus.eventHistory⟩

/-- The cancellation closure returned by `subscribe`: look up the
topic's current array, splice out the first `indexOf` occurrence of the
captured handler when present, and delete the topic entry when the
array is empty afterwards.  The closure keeps no state of its own, so
re-invoking it repeats exactly this procedure. -/
def StubPubSub.unsubscribe {α : Type} (topic : String) (h : Nat) (bus : StubPubSub α) :
    StubPubSub α :=
  match getAssoc bus.subscribers topic with
  | none => bus
  | some handlers =>
    let handlers2 := if handlers.contains h then handlers.erase h else handlers
    if handlers2.isEmpty then ⟨delAssoc bus.subscribers topic, bus.eventHistory⟩
    else ⟨setAssoc bus.subscribers topic handlers2, bus.eventHistory⟩

/-- `getEventHistory()`: the retained envelopes in publish order.  (The
source returns the spread copy `[...this.eventHistory]`; in this pure
embedding the returned list is a value, so the copy and the field
cannot be told apart.) -/
def StubPubSub.getEventHistory {α : Type} (bus : StubPubSub α) : List (EventEnvelope α) :=
  bus.eventHistory

/-- `getSubscriptions()`: topic to subscriber count, in topic
insertion order. -/
def StubPubSub.getSubscriptions {α : Type} (bus : StubPubSub α) : List (String × Nat) :=
  bus.subscribers.map (fun e => (e.1, e.2.length))

/-- One `publish` call as data, for iterated publishing. -/
structure PubCall (α : Type) where
  topic : String
  event : α
  idem : Option String
  meta : PublishMeta

/-- The envelope `publish` builds for a call. -/
def mkEnvelope {α : Type} (c : PubCall α) : EventEnvelope α :=
  ⟨c.meta.id, c.topic, c.meta.occurredAt, c.event, jsOrElse c.idem c.meta.freshIdem,
   c.meta.trace⟩

/-- Iterate `publish` over a list of calls. -/
def publishMany {α : Type} (bus : StubPubSub α) : List (PubCall α) → StubPubSub α
  | [] => bus
  | c :: cs => publishMany (bus.publish c.topic c.event c.idem c.meta).1 cs

/-! ## StubCache (src/platform/README.md)

`StubCache` keeps a `Map` from key to `{ value, expires? }`.  `set`
computes an absolute expiry `Date.now() + ttlSeconds * 1000` — but only
when `ttlSeconds` is truthy, so a TTL of `0` stores a permanent entry.
`get` evicts and misses when the entry has a truthy `expires` strictly
in the past.  The clock is threaded as an explicit `now : Int`
(milliseconds). -/

/-- One stored entry: the value and the optional absolute expiry in
milliseconds. -/
structure CacheEntry (α : Type) where
  value : α
  expires : Option Int := none

/-- State of a `StubCache` instance. -/
structure StubCache (α : Type) where
  store : List (String × CacheEntry α) := []

/-- JS truthiness of the optional `expires` field (`undefined` and `0`
are falsy). -/
def truthyExpires : Option Int → Bool
  | none => false
  | some e => e != 0

/-- `get(key)`: a present entry whose truthy expiry lies strictly
before `now` is deleted and reported as a miss; otherwise the stored
value is returned. -/
def StubCache.get {α : Type} (cache : StubCache α) (now : Int) (key : String) :
    Option α × StubCache α :=
  match getAssoc cache.store key with
  | none => (none, cache)
  | some entry =>
    if truthyExpires entry.expires ∧ entry.expires.getD 0 < now then
      (none, ⟨delAssoc cache.store key⟩)
    else (some entry.value, cache)

/-- `set(key, value, ttlSeconds?)`: store the value, with expiry
`now + ttlSeconds * 1000` exactly when `ttlSeconds` is truthy. -/
def StubCache.set {α : Type} (cache : StubCache α) (now : Int) (key : String) (value : α)
    (ttlSeconds : Option Int) : StubCache α :=
  let expires : Option Int :=
    match ttlSeconds with
    | some t => if t ≠ 0 then some (now + t * 1000) else none
    | none => none
  ⟨setAssoc cache.store key ⟨value, expires⟩⟩

/-- `del(key)`: `Map.delete`, returning whether an entry existed. -/
def StubCache.del {α : Type} (cache : StubCache α) (key : String) : Bool × StubCache α :=
  ((getAssoc cache.store key).isSome, ⟨delAssoc cache.store key⟩)

theorem map_fst_map_pair {α : Type} (l : List Nat) (env : EventEnvelope α) :
    (l.map (fun h => (h, env))).map Prod.fst = l := by
  induction l with
  | nil => rfl
  | cons a l ih => simp_all

/-- The handler ids scheduled by one `publish` are exactly the topic's
current subscriber array. -/
theorem StubPubSub.publish_deliveries {α : Type} (bus : StubPubSub α) (topic : String)
    (event : α) (idem : Option String) (meta : PublishMeta) :
    ((bus.publish topic event idem meta).2.map Prod.fst) =
      (getAssoc bus.subscribers topic).getD [] := by
  unfold StubPubSub.publish
  exact map_fst_map_pair _ _

/-- After `unsubscribe`, a handler subscribed once on top of a list it
did not occur in is gone, and the remaining subscriber array of the
topic is the original one. -/
theorem StubPubSub.unsubscribe_subscribe {α : Type} (bus : StubPubSub α) (t : String)
    (h : Nat) (hfresh : h ∉ (getAssoc bus.subscribers t).getD [])
    (hnd : (assocKeys bus.subscribers).Nodup) :
    (getAssoc (StubPubSub.unsubscribe t h (bus.subscribe t h)).subscribers t).getD [] =
      (getAssoc bus.subscribers t).getD [] := by
  have hsub : getAssoc (bus.subscribe t h).subscribers t =
      some (((getAssoc bus.subscribers t).getD []) ++ [h]) :=
    getAssoc_setAssoc_self _ _ _
  have hcont : (((getAssoc bus.subscribers t).getD []) ++ [h]).contains h = true := by
    simp
  have herase : (((getAssoc bus.subscribers t).getD []) ++ [h]).erase h =
      (getAssoc bus.subscribers t).getD [] := by
    rw [List.erase_append_right _ hfresh, List.erase_cons_head, List.append_nil]
  unfold StubPubSub.unsubscribe
  rw [hsub]
  simp only [hcont, if_true, herase]
  by_cases hoe : ((getAssoc bus.subscribers t).getD []).isEmpty = true
  · rw [if_pos hoe]
    have hnd2 : (assocKeys (bus.subscribe t h).subscribers).Nodup :=
      assocKeys_setAssoc_nodup _ _ _ hnd
    show (getAssoc (delAssoc (bus.subscribe t h).subscribers t) t).getD [] =
      (getAssoc bus.subscribers t).getD []
    rw [getAssoc_delAssoc_self _ _ hnd2]
    rw [List.isEmpty_iff] at hoe
    rw [hoe]
    rfl
  · rw [if_neg hoe]
    show (getAssoc (setAssoc (bus.subscribe t h).subscribers t
        ((getAssoc bus.subscribers t).getD [])) t).getD [] =
      (getAssoc bus.subscribers t).getD []
    rw [getAssoc_setAssoc_self]
    rfl

/-- C5: delivery contract of the event bus.  Subscribing a handler `h`
(not currently subscribed) to topic `t` and then publishing payload `p`
on `t` schedules exactly one delivery to `h`, and its envelope carries
`payload = p` and `type = t`; after invoking the cancellation function,
a subsequent publish on `t` schedules no delivery to `h` at all. -/
theorem stubPubSub_deliver_exactly_once {α : Type} (bus : StubPubSub α) (t : String)
    (h : Nat) (p p2 : α) (idem idem2 : Option String) (m m2 : PublishMeta)
    (hfresh : h ∉ (getAssoc bus.subscribers t).getD [])
    (hnd : (assocKeys bus.subscribers).Nodup) :
    (((bus.subscribe t h).publish t p idem m).2.map Prod.fst).count h = 1 ∧
    (∀ d ∈ ((bus.subscribe t h).publish t p idem m).2,
      d.1 = h → d.2.payload = p ∧ d.2.type = t) ∧
    (∀ d ∈ ((StubPubSub.unsubscribe t h (bus.subscribe t h)).publish t p2 idem2 m2).2,
      d.1 ≠ h) := by
  have hsub : getAssoc (bus.subscribe t h).subscribers t =
      some (((getAssoc bus.subscribers t).getD []) ++ [h]) :=
    getAssoc_setAssoc_self _ _ _
  refine ⟨?_, ?_, ?_⟩
  · rw [StubPubSub.publish_deliveries, hsub]
    rw [Option.getD_some, List.count_append]
    simp [List.count_eq_zero.mpr hfresh]
  · intro d hd _
    unfold StubPubSub.publish at hd
    simp only [List.mem_map] at hd
    obtain ⟨h2, _, hde⟩ := hd
    rw [← hde]
    exact ⟨rfl, rfl⟩
  · intro d hd hdh
    unfold StubPubSub.publish at hd
    simp only [List.mem_map] at hd
    obtain ⟨h2, hh2, hde⟩ := hd
    rw [StubPubSub.unsubscribe_subscribe bus t h hfresh hnd] at hh2
    rw [← hde] at hdh
    simp only at hdh
    subst hdh
    exact hfresh hh2

/-- Witness for C5: a fresh bus, topic `order.placed`, handler id 0. -/
theorem stubPubSub_deliver_exactly_once_witness :
    ((((⟨[], []⟩ : StubPubSub Nat).subscribe "order.placed" 0).publish "order.placed" 7
        none ⟨"id1", "ts1", "ik1", none⟩).2.map Prod.fst).count 0 = 1 ∧
    (∀ d ∈ (((⟨[], []⟩ : StubPubSub Nat).subscribe "order.placed" 0).publish "order.placed" 7
        none ⟨"id1", "ts1", "ik1", none⟩).2,
      d.1 = 0 → d.2.payload = 7 ∧ d.2.type = "order.placed") ∧
    (∀ d ∈ ((StubPubSub.unsubscribe "order.placed" 0
        ((⟨[], []⟩ : StubPubSub Nat).subscribe "order.placed" 0)).publish "order.placed" 8
        none ⟨"id2", "ts2", "ik2", none⟩).2,
      d.1 ≠ 0) :=
  stubPubSub_deliver_exactly_once ⟨[], []⟩ "order.placed" 0 7 8 none none
    ⟨"id1", "ts1", "ik1", none⟩ ⟨"id2", "ts2", "ik2", none⟩ (by simp [getAssoc])
    (by simp [assocKeys])

/-- C9 counterexample: subscribe the same handler (id 0) twice to
topic `x` and invoke the same cancellation closure twice.  The claim
says the second invocation removes nothing further; in the code it
splices out the second copy as well, deleting the topic entry — so
after two invocations the subscription count is gone instead of 1. -/
theorem stubPubSub_unsubscribe_reinvoke_counterexample :
    StubPubSub.getSubscriptions
        (StubPubSub.unsubscribe "x" 0 (StubPubSub.unsubscribe "x" 0
          (((⟨[], []⟩ : StubPubSub Nat).subscribe "x" 0).subscribe "x" 0))) = [] ∧
    StubPubSub.getSubscriptions
        (StubPubSub.unsubscribe "x" 0
          (((⟨[], []⟩ : StubPubSub Nat).subscribe "x" 0).subscribe "x" 0)) = [("x", 1)] :=
  ⟨rfl, rfl⟩

/-- C9 (amended): the cancellation closure removes the first occurrence
of the captured handler from the topic's subscriber list when one is
present, deleting the topic entry entirely when the list empties; an
invocation finding the handler absent — in particular any re-invocation
after cancelling a handler that had been subscribed only once — is a
no-op.  (When the same handler function was subscribed several times,
each invocation removes one more occurrence; the no-op applies only
once no occurrence is left.) -/
theorem stubPubSub_unsubscribe_semantics {α : Type} (bus : StubPubSub α) (t : String)
    (h : Nat) (hnd : (assocKeys bus.subscribers).Nodup) :
    (∀ hs, getAssoc bus.subscribers t = some hs → h ∈ hs →
      (hs.erase h ≠ [] →
        getAssoc (StubPubSub.unsubscribe t h bus).subscribers t = some (hs.erase h)) ∧
      (hs.erase h = [] →
        getAssoc (StubPubSub.unsubscribe t h bus).subscribers t = none)) ∧
    (getAssoc bus.subscribers t = none → StubPubSub.unsubscribe t h bus = bus) ∧
    (∀ hs, getAssoc bus.subscribers t = some hs → h ∉ hs → hs ≠ [] →
      StubPubSub.unsubscribe t h bus = bus) := by
  refine ⟨?_, ?_, ?_⟩
  · intro hs hhs hmem
    have hcont : hs.contains h = true := by simp [hmem]
    unfold StubPubSub.unsubscribe
    rw [hhs]
    simp only [hcont, if_true]
    constructor
    · intro hne
      rw [if_neg (by simp [hne])]
      exact getAssoc_setAssoc_self _ _ _
    · intro he
      rw [if_pos (by simp [he])]
      exact getAssoc_delAssoc_self _ _ hnd
  · intro hnone
    unfold StubPubSub.unsubscribe
    rw [hnone]
  · intro hs hhs hnotin hne
    have hcont : hs.contains h = false := by simp [hnotin]
    unfold StubPubSub.unsubscribe
    rw [hhs]
    simp only [hcont, if_false, Bool.false_eq_true]
    rw [if_neg (by simp [hne])]
    rw [setAssoc_of_getAssoc _ _ _ hhs]

/-- Witness for C9 (amended) on a bus with subscribers 0 and 1 on
topic `x`. -/
theorem stubPubSub_unsubscribe_semantics_witness :
    (∀ hs, getAssoc (⟨[("x", [0, 1])], []⟩ : StubPubSub Nat).subscribers "x" = some hs →
      0 ∈ hs →
      (hs.erase 0 ≠ [] →
        getAssoc (StubPubSub.unsubscribe "x" 0
          (⟨[("x", [0, 1])], []⟩ : StubPubSub Nat)).subscribers "x" = some (hs.erase 0)) ∧
      (hs.erase 0 = [] →
        getAssoc (StubPubSub.unsubscribe "x" 0
          (⟨[("x", [0, 1])], []⟩ : StubPubSub Nat)).subscribers "x" = none)) ∧
    (getAssoc (⟨[("x", [0, 1])], []⟩ : StubPubSub Nat).subscribers "x" = none →
      StubPubSub.unsubscribe "x" 0 (⟨[("x", [0, 1])], []⟩ : StubPubSub Nat) =
        ⟨[("x", [0, 1])], []⟩) ∧
    (∀ hs, getAssoc (⟨[("x", [0, 1])], []⟩ : StubPubSub Nat).subscribers "x" = some hs →
      0 ∉ hs → hs ≠ [] →
      StubPubSub.unsubscribe "x" 0 (⟨[("x", [0, 1])], []⟩ : StubPubSub Nat) =
        ⟨[("x", [0, 1])], []⟩) :=
  stubPubSub_unsubscribe_semantics ⟨[("x", [0, 1])], []⟩ "x" 0 (by simp [assocKeys])

/-- Shifting one element off a 101-entry buffer commutes with taking
the final 100-entry suffix. -/
theorem tail_append_drop_eq {γ : Type} (b : List γ) (e : γ) (rest : List γ)
    (h100 : b.length = 100) :
    ((b ++ [e]).drop 1 ++ rest).drop (((b ++ [e]).drop 1 ++ rest).length - 100) =
      (b ++ e :: rest).drop ((b ++ e :: rest).length - 100) := by
  have hlen : ((b ++ [e]).drop 1 ++ rest).length = 100 + rest.length := by
    simp [h100]
  have hlen2 : (b ++ e :: rest).length = 101 + rest.length := by
    simp [h100]
    omega
  rw [hlen, hlen2]
  rw [show 100 + rest.length - 100 = rest.length from by omega]
  rw [show 101 + rest.length - 100 = rest.length + 1 from by omega]
  rw [show (b ++ [e]).drop 1 ++ rest = ((b ++ [e]) ++ rest).drop 1 from
    (List.drop_append_of_le_length (by simp)).symm]
  rw [List.drop_drop]
  rw [show (b ++ [e]) ++ rest = b ++ e :: rest from by simp]
  rw [Nat.add_comm 1 rest.length]

/-- History of iterated publishing: the retained suffix of all built
envelopes, capped at the 100 most recent. -/
theorem publishMany_history {α : Type} (calls : List (PubCall α)) (bus : StubPubSub α)
    (hlen : bus.eventHistory.length ≤ 100) :
    (publishMany bus calls).eventHistory =
      (bus.eventHistory ++ calls.map mkEnvelope).drop
        ((bus.eventHistory ++ calls.map mkEnvelope).length - 100) := by
  induction calls generalizing bus with
  | nil =>
    simp only [publishMany, List.map_nil, List.append_nil]
    rw [Nat.sub_eq_zero_of_le hlen, List.drop_zero]
  | cons c cs ih =>
    simp only [publishMany, List.map_cons]
    have hbus1 : (bus.publish c.topic c.event c.idem c.meta).1.eventHistory =
        if (bus.eventHistory ++ [mkEnvelope c]).length > 100
        then (bus.eventHistory ++ [mkEnvelope c]).tail
        else bus.eventHistory ++ [mkEnvelope c] := rfl
    by_cases hc : (bus.eventHistory ++ [mkEnvelope c]).length > 100
    · have h100 : bus.eventHistory.length = 100 := by
        simp only [List.length_append, List.length_cons, List.length_nil] at hc
        omega
      have hl1 : (bus.publish c.topic c.event c.idem c.meta).1.eventHistory =
          (bus.eventHistory ++ [mkEnvelope c]).drop 1 := by
        rw [hbus1, if_pos hc, ← List.drop_one]
      have hlen1 : (bus.publish c.topic c.event c.idem c.meta).1.eventHistory.length ≤ 100 := by
        rw [hl1]
        simp [h100]
      rw [ih _ hlen1, hl1]
      exact tail_append_drop_eq _ _ _ h100
    · have hl1 : (bus.publish c.topic c.event c.idem c.meta).1.eventHistory =
          bus.eventHistory ++ [mkEnvelope c] := by
        rw [hbus1, if_neg hc]
      have hlen1 : (bus.publish c.topic c.event c.idem c.meta).1.eventHistory.length ≤ 100 := by
        rw [hl1]
        simp only [List.length_append, List.length_cons, List.length_nil] at hc ⊢
        omega
      rw [ih _ hlen1, hl1]
      rw [List.append_assoc, List.singleton_append]

/-- C6: the event history is bounded at 100 with oldest-first
eviction.  Publishing any 150 events from a fresh bus leaves
`getEventHistory()` with exactly the envelopes of the 100 most recent
publishes, in publish order: the 50 oldest have been dropped.  (The
source returns the history as the spread copy `[...]`; in this pure
embedding lists are immutable values, so the snapshot aspect has no
separate content.) -/
theorem stubPubSub_history_bound {α : Type} (calls : List (PubCall α))
    (h150 : calls.length = 150) :
    StubPubSub.getEventHistory (publishMany ⟨[], []⟩ calls) =
      (calls.map mkEnvelope).drop 50 ∧
    (StubPubSub.getEventHistory (publishMany ⟨[], []⟩ calls)).length = 100 := by
  have hmain := publishMany_history calls ⟨[], []⟩ (by simp)
  have hh : StubPubSub.getEventHistory (publishMany ⟨[], []⟩ calls) =
      (calls.map mkEnvelope).drop 50 := by
    unfold StubPubSub.getEventHistory
    rw [hmain]
    simp [h150]
  refine ⟨hh, ?_⟩
  rw [hh]
  simp [h150]

/-- Witness for C6: 150 identical publishes on topic `t`. -/
theorem stubPubSub_history_bound_witness :
    StubPubSub.getEventHistory
        (publishMany ⟨[], []⟩
          (List.replicate 150 (⟨"t", 0, none, ⟨"i", "o", "k", none⟩⟩ : PubCall Nat))) =
      ((List.replicate 150 (⟨"t", 0, none, ⟨"i", "o", "k", none⟩⟩ : PubCall Nat)).map
        mkEnvelope).drop 50 ∧
    (StubPubSub.getEventHistory
        (publishMany ⟨[], []⟩
          (List.replicate 150 (⟨"t", 0, none, ⟨"i", "o", "k", none⟩⟩ : PubCall Nat)))).length
      = 100 :=
  stubPubSub_history_bound
    (List.replicate 150 (⟨"t", 0, none, ⟨"i", "o", "k", none⟩⟩ : PubCall Nat)) (by simp)

/-- C7 counterexample: `set` with the TTL `0` at time 1000.  The claim
says the entry then carries absolute expiry `1000 + 0` and is gone
after that moment; but `if (ttlSeconds)` treats the TTL `0` as absent,
so the code stores the entry permanently and still serves it at time
1000000000. -/
theorem stubCache_ttl_zero_counterexample :
    ((((⟨[]⟩ : StubCache Nat).set 1000 "k" 42 (some 0)).get 1000000000 "k").1 = some 42) ∧
    ((1000 : Int) + 0 * 1000 < 1000000000) := by
  constructor
  · rfl
  · decide

/-- If a key is absent from the store, `get` misses and leaves the
state unchanged. -/
theorem StubCache.get_absent {α : Type} (cache : StubCache α) (now : Int) (key : String)
    (h : getAssoc cache.store key = none) : cache.get now key = (none, cache) := by
  unfold StubCache.get
  rw [h]

/-- C7 (amended): TTL semantics of `StubCache` for a positive TTL and
a nonnegative clock (`if (ttlSeconds)` makes a zero TTL store the
value permanently, so the expiry contract holds for nonzero — in
practice positive — TTLs).  `set(k, v, t)` stores `v` with absolute
expiry `now + t` seconds; `get(k)` at or before the expiry returns
`v`; `get(k)` strictly after the expiry evicts the entry and misses,
and every subsequent `get` misses too; `set(k, v)` without TTL stores
permanently; `del(k)` returns `true` exactly when an entry was
present. -/
theorem stubCache_ttl_semantics {α : Type} (c : StubCache α) (now now2 now3 now4 : Int)
    (key : String) (v : α) (t : Int)
    (hnd : (assocKeys c.store).Nodup) (ht : 0 < t) (hnow : 0 ≤ now) :
    (getAssoc (c.set now key v (some t)).store key = some ⟨v, some (now + t * 1000)⟩) ∧
    (now2 ≤ now + t * 1000 →
      (c.set now key v (some t)).get now2 key = (some v, c.set now key v (some t))) ∧
    (now + t * 1000 < now3 →
      ((c.set now key v (some t)).get now3 key).1 = none ∧
      getAssoc (((c.set now key v (some t)).get now3 key).2).store key = none ∧
      ((((c.set now key v (some t)).get now3 key).2).get now4 key).1 = none) ∧
    ((c.set now key v none).get now2 key = (some v, c.set now key v none)) ∧
    ((c.del key).1 = true ↔ (getAssoc c.store key).isSome = true) := by
  have hset : getAssoc (c.set now key v (some t)).store key =
      some ⟨v, some (now + t * 1000)⟩ := by
    unfold StubCache.set
    simp only [if_pos (show t ≠ 0 from by omega)]
    exact getAssoc_setAssoc_self _ _ _
  have hpos : (0 : Int) < now + t * 1000 := by nlinarith
  refine ⟨hset, ?_, ?_, ?_, Iff.rfl⟩
  · intro hle
    unfold StubCache.get
    simp only [hset]
    rw [if_neg ?_]
    intro hcond
    have := hcond.2
    simp only [Option.getD_some] at this
    omega
  · intro hlt
    have hcond : truthyExpires (some (now + t * 1000)) = true ∧
        (some (now + t * 1000)).getD 0 < now3 := by
      constructor
      · simp only [truthyExpires, bne_iff_ne]
        omega
      · simp only [Option.getD_some]
        exact hlt
    have hget3 : (c.set now key v (some t)).get now3 key =
        (none, ⟨delAssoc (c.set now key v (some t)).store key⟩) := by
      unfold StubCache.get
      simp only [hset]
      rw [if_pos hcond]
    have hnd2 : (assocKeys (c.set now key v (some t)).store).Nodup := by
      unfold StubCache.set
      exact assocKeys_setAssoc_nodup _ _ _ hnd
    have hgone : getAssoc (delAssoc (c.set now key v (some t)).store key) key = none :=
      getAssoc_delAssoc_self _ _ hnd2
    refine ⟨by rw [hget3], ?_, ?_⟩
    · rw [hget3]
      exact hgone
    · rw [hget3]
      rw [StubCache.get_absent _ _ _ hgone]
  · unfold StubCache.get
    have hsetn : getAssoc (c.set now key v none).store key = some ⟨v, none⟩ := by
      unfold StubCache.set
      exact getAssoc_setAssoc_self _ _ _
    simp only [hsetn]
    rw [if_neg ?_]
    intro hcond
    exact absurd hcond.1 (by simp [truthyExpires])

/-- Witness for C7 (amended): `set("k", 42, 30)` at time 1000, read at
25000 (before expiry 31000), at 36000 (after), and re-read at 40000;
plus the permanent `set` and `del` clauses. -/
theorem stubCache_ttl_semantics_witness :
    (getAssoc ((⟨[]⟩ : StubCache Nat).set 1000 "k" 42 (some 30)).store "k" =
      some ⟨42, some (1000 + 30 * 1000)⟩) ∧
    ((25000 : Int) ≤ 1000 + 30 * 1000 →
      ((⟨[]⟩ : StubCache Nat).set 1000 "k" 42 (some 30)).get 25000 "k" =
        (some 42, (⟨[]⟩ : StubCache Nat).set 1000 "k" 42 (some 30))) ∧
    ((1000 : Int) + 30 * 1000 < 36000 →
      (((⟨[]⟩ : StubCache Nat).set 1000 "k" 42 (some 30)).get 36000 "k").1 = none ∧
      getAssoc ((((⟨[]⟩ : StubCache Nat).set 1000 "k" 42 (some 30)).get 36000 "k").2).store "k"
        = none ∧
      (((((⟨[]⟩ : StubCache Nat).set 1000 "k" 42 (some 30)).get 36000 "k").2).get 40000 "k").1
        = none) ∧
    (((⟨[]⟩ : StubCache Nat).set 1000 "k" 42 none).get 25000 "k" =
      (some 42, (⟨[]⟩ : StubCache Nat).set 1000 "k" 42 none)) ∧
    (((⟨[]⟩ : StubCache Nat).del "k").1 = true ↔
      (getAssoc (⟨[]⟩ : StubCache Nat).store "k").isSome = true) :=
  stubCache_ttl_semantics ⟨[]⟩ 1000 25000 36000 40000 "k" 42 30 (by simp [assocKeys])
    (by decide) (by decide)

end FamilyHelper
